import Mathlib

/-!
# ClinicAgent (`src/memory/init.cc`): a shallow embedding

The module keeps its state in file-level globals.  The embedding threads one
`State` record through the operations.  Heap objects created with `new` live
in lists indexed by address; `delete` clears the `live` bit of a cell, and an
access to a dead cell is an undefined step (`none`).

Machine integers are mathematical integers reduced explicitly:
`unsigned int` modulo `2^32`, `uint64_t` modulo `2^64`, and the signed types
`int` and `int64_t` by two's-complement wrap-around.

Results of the libuv and V8 primitives (`uv_loop_init`, `uv_timer_stop`,
`FindObjectById`, the heap statistics, the process id) are inputs of the
operations.  The write primitive `uv_fs_write` acts on an explicit file;
what the system makes of each write is an input.  Console output (`printf`)
is not modelled.
-/

namespace ClinicAgent

/-! ## Machine arithmetic -/

/-- Two's-complement value of a 32-bit `int`. -/
def wrap_int32 (x : Int) : Int := (x + 2147483648) % 4294967296 - 2147483648

/-- Two's-complement value of an `int64_t`. -/
def wrap_int64 (x : Int) : Int :=
  (x + 9223372036854775808) % 18446744073709551616 - 9223372036854775808

/-- Decimal rendering of an `int`, as `std::to_string` does. -/
def to_string (i : Int) : String :=
  if i < 0 then "-" ++ Nat.repr i.natAbs else Nat.repr i.toNat

/-! ## Data model -/

/-- Capacity of the timeline: `statistics_timeline_max_size`. -/
def statistics_timeline_max_size : Nat := 120

/-- The three handles of `struct AgentWorker`, by what has been done to them. -/
structure AgentWorker where
  loop_initialized : Bool
  timer_initialized : Bool
  timer_started : Bool
  thread_created : Bool
deriving DecidableEq, Repr

/-- Record `struct SnapshotMetaData`. -/
structure SnapshotMetaData where
  snapshot_number : Int
  destination_directory : String
deriving DecidableEq, Repr

/-- Initial value of `agent_snapshot_data`: the member initialisers. -/
def SnapshotMetaData.init : SnapshotMetaData :=
  { snapshot_number := 0, destination_directory := "./" }

/-- Fields `need_action` and `pending` of `struct SnapshotRequestData`. -/
structure SnapshotRequestData where
  need_action : Bool
  pending : Nat
deriving DecidableEq, Repr

/-- Constructor `SnapshotRequestData(unsigned int todo)`. -/
def SnapshotRequestData.new (todo : Nat) : SnapshotRequestData :=
  { need_action := true, pending := todo % 4294967296 }

/-- A heap cell holding a request; `live` is false once `delete this` ran. -/
structure RequestCell where
  data : SnapshotRequestData
  live : Bool
deriving DecidableEq, Repr

/-- The module globals, the two object heaps, and a record of what the
module did to its collaborators. -/
structure State where
  /-- Global `statistics_timeline`, front of the vector first. -/
  statistics_timeline : List Nat
  /-- Global `agent_worker`: address in `workers`, or null. -/
  agent_worker : Option Nat
  /-- Global `agent_snapshot_data`. -/
  agent_snapshot_data : SnapshotMetaData
  /-- Global `current_snapshot_req`: address in `requests`, or null. -/
  current_snapshot_req : Option Nat
  /-- Objects made by `new AgentWorker()`, by address. -/
  workers : List AgentWorker
  /-- Objects made by `new SnapshotRequestData(2)`, by address. -/
  requests : List RequestCell
  /-- Addresses on which `delete this` ran, oldest first. -/
  freed : List Nat
  /-- Requests handed to `uv_queue_work`, oldest first. -/
  queued_work : List Nat
  /-- Requests handed to `RequestInterrupt`, oldest first. -/
  interrupts : List Nat
  /-- Number of executions of `work()`. -/
  work_calls : Nat
  /-- Paths opened by `HeapSnapshot`, oldest first. -/
  snapshot_files : List String
  /-- Value of the local `mean` in the latest `work()`;
  `none` before the first one and when the divisor was zero. -/
  mean : Option Nat
deriving DecidableEq, Repr

/-- State right after the module is loaded. -/
def State.init : State :=
  { statistics_timeline := [], agent_worker := none,
    agent_snapshot_data := SnapshotMetaData.init, current_snapshot_req := none,
    workers := [], requests := [], freed := [], queued_work := [],
    interrupts := [], work_calls := 0, snapshot_files := [], mean := none }

/-! ## FileOutputStream -/

/-- Enumeration `v8::OutputStream::WriteResult`. -/
inductive WriteResult where
  | kContinue
  | kAbort
deriving DecidableEq, Repr

/-- The file behind the descriptor `fd`: its bytes from offset 0 on, and the
position of the descriptor. -/
structure File where
  content : List Char
  position : Nat
deriving DecidableEq, Repr

/-- Content of a file after `bytes` have been stored at offset `off`: bytes
in the range are replaced, a gap between the old end and `off` reads as
zero bytes, and storing no byte changes nothing. -/
def write_at (content : List Char) (off : Nat) (bytes : List Char) : List Char :=
  if bytes = [] then content
  else
    content.take off ++ List.replicate (off - content.length) (Char.ofNat 0) ++ bytes ++
      content.drop (off + bytes.length)

/-- The libuv primitive `uv_fs_write(nullptr, &req, fd, &buf, 1, offset,
nullptr)` on POSIX: the file afterwards and `req.result`.  `outcome` is what
the system makes of the request: an error code (negative) or the number of
bytes it takes.  With a negative `offset` libuv calls `write`, which stores
at the position of the descriptor and advances it; otherwise it calls
`pwrite`, which stores at `offset`, leaves the position alone, and refuses
with `EINVAL` (-22) a range that ends beyond the largest `off_t`. -/
def uv_fs_write (file : File) (offset : Int) (buf : List Char) (outcome : Int) :
    File × Int :=
  if outcome < 0 then (file, outcome)
  else if offset < 0 then
    ({ content := write_at file.content file.position (buf.take outcome.toNat),
       position := file.position + (buf.take outcome.toNat).length }, outcome)
  else if 9223372036854775807 < offset + buf.length then (file, -22)
  else
    ({ content := write_at file.content offset.toNat (buf.take outcome.toNat),
       position := file.position }, outcome)

/-- One call of `uv_fs_write`: the file offset passed, the buffer passed
(`buf.base` up to `buf.base + buf.len`) and `write_req.result`. -/
structure WriteCall where
  offset : Int
  buf : List Char
  result : Int
deriving DecidableEq, Repr

/-- Bytes a call reported as written: the first `result` bytes of its buffer. -/
def WriteCall.accepted (c : WriteCall) : List Char := c.buf.take c.result.toNat

/-- The `while` loop of `WriteAsciiChunk`, entered with the result of the
latest write.  `outcomes` supplies what the system makes of the writes still
to come; the loop is undefined (`none`) when it needs one more than
supplied.  Returns the outcome, the final `offset`, every write issued and
the file. -/
def WriteAsciiChunk_while (file : File) (offset size : Int) (buf : List Char)
    (result : Int) (calls : List WriteCall) (outcomes : List Int) :
    Option (WriteResult × Int × List WriteCall × File) :=
  match outcomes with
  | [] =>
    if result < size then
      if result < 0 then some (WriteResult.kAbort, offset, calls, file) else none
    else some (WriteResult.kContinue, wrap_int64 (offset + result), calls, file)
  | w :: rest =>
    if result < size then
      if result < 0 then some (WriteResult.kAbort, offset, calls, file)
      else
        let offset1 := wrap_int64 (offset + result)
        let size1 := size - result
        let buf1 := buf.drop result.toNat
        let written := uv_fs_write file offset1 buf1 w
        WriteAsciiChunk_while written.1 offset1 size1 buf1 written.2
          (calls ++ [{ offset := offset1, buf := buf1, result := written.2 }]) rest
    else some (WriteResult.kContinue, wrap_int64 (offset + result), calls, file)

/-- Method `FileOutputStream::WriteAsciiChunk(data, size)` with
`size = data.length`, on a stream whose member `offset` is `offset` and
whose descriptor is open on `file`. -/
def WriteAsciiChunk (file : File) (offset : Int) (data : List Char)
    (outcomes : List Int) : Option (WriteResult × Int × List WriteCall × File) :=
  match outcomes with
  | [] => none
  | w :: rest =>
    let written := uv_fs_write file offset data w
    WriteAsciiChunk_while written.1 offset data.length data written.2
      [{ offset := offset, buf := data, result := written.2 }] rest

/-- Outcomes of the writes as the retry loop meets them, with `n` bytes
still unwritten: for each write the loop issues, the outcome is negative or
between `1` and the number of bytes still unwritten.  Outcomes that come
after the loop has finished are not constrained. -/
def Admissible : Nat → List Int → Prop
  | _, [] => True
  | n, r :: rest =>
    r < 0 ∨ (1 ≤ r ∧ r ≤ n ∧ (r = n ∨ Admissible (n - r.toNat) rest))

/-- Admissible outcomes that moreover supply an outcome for every write the
loop issues. -/
def Covering : Nat → List Int → Prop
  | _, [] => False
  | n, r :: rest =>
    r < 0 ∨ (1 ≤ r ∧ r ≤ n ∧ (r = n ∨ Covering (n - r.toNat) rest))

/-- The writes `calls` continue one another from byte `p` of `data`: each
is issued at file offset `o + p` on the part of `data` from byte `p` on,
where `p` counts the bytes the writes before it reported as written. -/
def Consecutive (o : Int) (data : List Char) : Nat → List WriteCall → Prop
  | _, [] => True
  | p, c :: rest =>
    c.offset = o + p ∧ c.buf = data.drop p ∧ Consecutive o data (p + c.result.toNat) rest

/-- Number of bytes the writes `calls` reported as written. -/
def bytes_accepted (calls : List WriteCall) : Nat :=
  (calls.map (fun c => c.result.toNat)).sum

/-! ## HeapSnapshot -/

/-- Function `HeapSnapshot(isolate, state)`: the updated metadata and the
path handed to `FileOutputStream`.  `pid` is `uv_os_getpid()`. -/
def HeapSnapshot (pid : Int) (state : SnapshotMetaData) : SnapshotMetaData × String :=
  let id := state.snapshot_number
  let state1 := { state with snapshot_number := wrap_int32 (state.snapshot_number + 1) }
  let heapsnapshot_path_std :=
    state1.destination_directory ++ to_string pid ++ "." ++ to_string id ++ ".heapsnapshot"
  (state1, heapsnapshot_path_std)

/-- Metadata after `n` snapshots taken from the initial metadata. -/
def snapshots_taken (pid : Int) : Nat → SnapshotMetaData
  | 0 => SnapshotMetaData.init
  | n + 1 => (HeapSnapshot pid (snapshots_taken pid n)).1

/-- Path of snapshot number `k`, counting from 0. -/
def snapshot_path (pid : Int) (k : Nat) : String :=
  (HeapSnapshot pid (snapshots_taken pid k)).2

/-! ## The protected action -/

/-- Lines 102-105 of `work()`: insert at the front, then `resize` down to
the capacity when the vector is longer. -/
def record (used_heap_size : Nat) (timeline : List Nat) : List Nat :=
  let inserted := used_heap_size :: timeline
  if inserted.length > statistics_timeline_max_size then
    inserted.take statistics_timeline_max_size
  else inserted

/-- Lines 106-109 of `work()`: the `uint64_t` accumulator after the loop. -/
def timeline_sum (timeline : List Nat) : Nat :=
  timeline.foldl (fun sum used_heap_size => (sum + used_heap_size) % 18446744073709551616) 0

/-- Line 110 of `work()`: `sum / statistics_timeline.size()`; `none` is the
division by zero. -/
def timeline_mean (timeline : List Nat) : Option Nat :=
  if timeline.length = 0 then none else some (timeline_sum timeline / timeline.length)

/-- Function `work()`.  `used_heap_size` is what the engine reports,
`pid` the process id read by `HeapSnapshot`. -/
def work (pid : Int) (used_heap_size : Nat) (s : State) : State :=
  let timeline := record used_heap_size s.statistics_timeline
  let snap := HeapSnapshot pid s.agent_snapshot_data
  { s with
    statistics_timeline := timeline
    mean := timeline_mean timeline
    agent_snapshot_data := snap.1
    snapshot_files := s.snapshot_files ++ [snap.2]
    work_calls := s.work_calls + 1
    current_snapshot_req := none }

/-! ## SnapshotRequestData and its two callbacks -/

/-- Method `SnapshotRequestData::consume()` on the object at address `a`:
the returned flag and the new state.  Undefined on a dead or unallocated
address. -/
def consume (a : Nat) (s : State) : Option (Bool × State) :=
  match s.requests[a]? with
  | none => none
  | some c =>
    if c.live then
      let need_action := c.data.need_action
      let pending := (c.data.pending + 4294967295) % 4294967296
      some (need_action,
        { s with
          requests := s.requests.set a
            { data := { need_action := false, pending := pending }, live := !(pending == 0) }
          freed := if pending == 0 then s.freed ++ [a] else s.freed })
    else none

/-- Callback `INTERRUPT_HeapSnapshot` for the request at address `a`. -/
def INTERRUPT_HeapSnapshot (pid : Int) (used_heap_size : Nat) (a : Nat) (s : State) :
    Option State :=
  match consume a s with
  | none => none
  | some (need_action, s1) => if need_action then some (work pid used_heap_size s1) else some s1

/-- Callback `AFTER_WORK_HeapSnapshot` for the request at address `a`.
`UV_ECANCELED` is the libuv status constant, whose value the source takes
from `uv.h`. -/
def AFTER_WORK_HeapSnapshot (UV_ECANCELED : Int) (pid : Int) (used_heap_size : Nat)
    (a : Nat) (status : Int) (s : State) : Option State :=
  if status ≠ UV_ECANCELED then
    match consume a s with
    | none => none
    | some (need_action, s1) =>
      if need_action then some (work pid used_heap_size s1) else some s1
  else some s

/-- Timer callback `wake_agent`. -/
def wake_agent (s : State) : State :=
  match s.current_snapshot_req with
  | none =>
    let snap_req := s.requests.length
    { s with
      requests := s.requests ++ [{ data := SnapshotRequestData.new 2, live := true }]
      current_snapshot_req := some snap_req
      queued_work := s.queued_work ++ [snap_req]
      interrupts := s.interrupts ++ [snap_req] }
  | some _ => s

/-- The request at address `a` is live and still has `need_action` set. -/
def needs_action (s : State) (a : Nat) : Bool :=
  match s.requests[a]? with
  | some c => c.live && c.data.need_action
  | none => false

/-- One step of the module: a timer tick, or one of the two callbacks on a
live request (the completion callback with any status). -/
inductive Step (UV_ECANCELED : Int) : State → State → Prop where
  | tick (s : State) : Step UV_ECANCELED s (wake_agent s)
  | interrupt (pid : Int) (used : Nat) (a : Nat) (s s1 : State) :
      INTERRUPT_HeapSnapshot pid used a s = some s1 → Step UV_ECANCELED s s1
  | after_work (pid : Int) (used : Nat) (a : Nat) (status : Int) (s s1 : State) :
      (∃ c, s.requests[a]? = some c ∧ c.live = true) →
      AFTER_WORK_HeapSnapshot UV_ECANCELED pid used a status s = some s1 →
      Step UV_ECANCELED s s1

/-- States reachable from `s0` by steps. -/
inductive Reachable (UV_ECANCELED : Int) (s0 : State) : State → Prop where
  | start : Reachable UV_ECANCELED s0 s0
  | step (s s1 : State) :
      Reachable UV_ECANCELED s0 s → Step UV_ECANCELED s s1 → Reachable UV_ECANCELED s0 s1

/-! ## Enable and Disable -/

/-- Results of the three libuv initialisation calls made by `Enable`. -/
structure EnableResults where
  uv_loop_init : Int
  uv_timer_init : Int
  uv_thread_create : Int
deriving DecidableEq, Repr

/-- Function `Enable`: the new state and the message of the exception
thrown, if any. -/
def Enable (r : EnableResults) (s : State) : State × Option String :=
  match s.agent_worker with
  | some _ => (s, none)
  | none =>
    let worker := s.workers.length
    let fresh : AgentWorker :=
      { loop_initialized := false, timer_initialized := false,
        timer_started := false, thread_created := false }
    let s1 := { s with workers := s.workers ++ [fresh], agent_worker := some worker }
    let thrown := some "cannot allocate agent polling timer"
    if r.uv_loop_init ≥ 0 then
      let w1 := { fresh with loop_initialized := true }
      if r.uv_timer_init ≥ 0 then
        let w2 := { w1 with timer_initialized := true, timer_started := true }
        if r.uv_thread_create ≥ 0 then
          ({ s1 with workers := s.workers ++ [{ w2 with thread_created := true }] }, none)
        else ({ s1 with workers := s.workers ++ [w2] }, thrown)
      else ({ s1 with workers := s.workers ++ [w1] }, thrown)
    else (s1, thrown)

/-- Function `Disable`; `uv_timer_stop` is the result of that call. -/
def Disable (uv_timer_stop : Int) (s : State) : State × Option String :=
  match s.agent_worker with
  | none => (s, none)
  | some worker =>
    if uv_timer_stop ≥ 0 then
      ({ s with
         agent_worker := none
         workers := s.workers.modify (fun w => { w with timer_started := false }) worker },
       none)
    else (s, some "cannot deallocate agent polling timer")

/-- A worker whose timer is started exists. -/
def timer_running (s : State) : Bool := s.workers.any (fun w => w.timer_started)

/-! ## Object lookup -/

/-- What `args[0]` is to `GetObjectBySnapshotId`: a number, with the
`int64_t` that `ToInteger()->Value()` gives, or anything else. -/
inductive Value where
  | number (integer : Int)
  | other
deriving DecidableEq, Repr

/-- What an exported function does to its caller. -/
inductive Effect where
  | ThrowException (message : String)
  | SetReturnValue (obj : Nat)
deriving DecidableEq, Repr

/-- Function `GetObjectBySnapshotId`: its effects, in order.
`FindObjectById` is the profiler lookup, on the `int` passed to it. -/
def GetObjectBySnapshotId (FindObjectById : Int → Option Nat) (arg : Value) : List Effect :=
  let id : Int :=
    match arg with
    | Value.number integer => wrap_int32 integer
    | Value.other => 0
  let first : List Effect :=
    if id ≤ 0 then [Effect.ThrowException "expected positive integer id"] else []
  match FindObjectById id with
  | none => first ++ [Effect.ThrowException "no object found, have you taken a snapshot?"]
  | some obj => first ++ [Effect.SetReturnValue obj]

/-! ## Enable and Disable in their target state -/

/-- C9: `Enable` on an enabled agent and `Disable` on an agent that is not
enabled throw nothing and leave the whole state as it was; in particular
`Enable` allocates no second worker and starts no timer, and `Disable` stops
none. -/
theorem enable_disable_noop_in_target_state (r : EnableResults) (uv_timer_stop : Int)
    (s : State) :
    (s.agent_worker ≠ none → Enable r s = (s, none)) ∧
    (s.agent_worker = none → Disable uv_timer_stop s = (s, none)) := by
  constructor
  · intro h
    cases hw : s.agent_worker with
    | none => exact absurd hw h
    | some w => simp [Enable, hw]
  · intro h
    simp [Disable, h]

/-- Witness of C9: the second of two calls of `Enable` changes nothing, and
so does `Disable` right after the module is loaded. -/
theorem enable_disable_noop_in_target_state_witness :
    (Enable ⟨0, 0, 0⟩ State.init).1.agent_worker ≠ none ∧
    Enable ⟨0, 0, 0⟩ (Enable ⟨0, 0, 0⟩ State.init).1 = ((Enable ⟨0, 0, 0⟩ State.init).1, none) ∧
    State.init.agent_worker = none ∧
    Disable 0 State.init = (State.init, none) :=
  ⟨by decide,
   (enable_disable_noop_in_target_state ⟨0, 0, 0⟩ 0 (Enable ⟨0, 0, 0⟩ State.init).1).1 (by decide),
   rfl,
   (enable_disable_noop_in_target_state ⟨0, 0, 0⟩ 0 State.init).2 rfl⟩

/-! ## Enable when an initialisation step fails -/

/-- C6: on the freshly loaded module, when `uv_loop_init` fails (first
group), when `uv_timer_init` fails (second group) and when
`uv_thread_create` fails (third group), `Enable` throws its exception but
leaves `agent_worker` pointing at the worker it allocated, so that a later
`Enable` whose three steps would succeed is a no-op that throws nothing; in
the third case the timer that was started is still started.  When the three
steps succeed (last group) nothing is thrown and `agent_worker` is set. -/
theorem enable_failure_leaves_agent_worker_set :
    ((Enable ⟨-12, 0, 0⟩ State.init).2 = some "cannot allocate agent polling timer" ∧
      (Enable ⟨-12, 0, 0⟩ State.init).1.agent_worker = some 0 ∧
      Enable ⟨0, 0, 0⟩ (Enable ⟨-12, 0, 0⟩ State.init).1 =
        ((Enable ⟨-12, 0, 0⟩ State.init).1, none)) ∧
    ((Enable ⟨0, -12, 0⟩ State.init).2 = some "cannot allocate agent polling timer" ∧
      (Enable ⟨0, -12, 0⟩ State.init).1.agent_worker = some 0 ∧
      Enable ⟨0, 0, 0⟩ (Enable ⟨0, -12, 0⟩ State.init).1 =
        ((Enable ⟨0, -12, 0⟩ State.init).1, none)) ∧
    ((Enable ⟨0, 0, -11⟩ State.init).2 = some "cannot allocate agent polling timer" ∧
      (Enable ⟨0, 0, -11⟩ State.init).1.agent_worker = some 0 ∧
      timer_running (Enable ⟨0, 0, -11⟩ State.init).1 = true ∧
      Enable ⟨0, 0, 0⟩ (Enable ⟨0, 0, -11⟩ State.init).1 =
        ((Enable ⟨0, 0, -11⟩ State.init).1, none)) ∧
    ((Enable ⟨0, 0, 0⟩ State.init).2 = none ∧
      (Enable ⟨0, 0, 0⟩ State.init).1.agent_worker = some 0 ∧
      (Enable ⟨0, 0, 0⟩ State.init).1.workers =
        [{ loop_initialized := true, timer_initialized := true,
           timer_started := true, thread_created := true }]) := by
  decide

/-! ## Object lookup with an id that is not positive -/

/-- C5: with an engine that maps no id, `GetObjectBySnapshotId` called with
`0`, with `-5` or with a value that is not a number throws "expected positive
integer id" and then, not having returned, looks the id up and throws "no
object found, have you taken a snapshot?" as well; and for an engine that
answers the lookup with an object, the call with `0` throws and then sets
that object as its return value.  With a positive id (last two lines) the
call returns the object the engine maps the id to, and throws "no object
found, have you taken a snapshot?" alone when there is none. -/
theorem lookup_continues_after_invalid_id :
    GetObjectBySnapshotId (fun _ => none) (Value.number 0) =
      [Effect.ThrowException "expected positive integer id",
       Effect.ThrowException "no object found, have you taken a snapshot?"] ∧
    GetObjectBySnapshotId (fun _ => none) (Value.number (-5)) =
      [Effect.ThrowException "expected positive integer id",
       Effect.ThrowException "no object found, have you taken a snapshot?"] ∧
    GetObjectBySnapshotId (fun _ => none) Value.other =
      [Effect.ThrowException "expected positive integer id",
       Effect.ThrowException "no object found, have you taken a snapshot?"] ∧
    (∀ obj : Nat, GetObjectBySnapshotId (fun _ => some obj) (Value.number 0) =
      [Effect.ThrowException "expected positive integer id", Effect.SetReturnValue obj]) ∧
    GetObjectBySnapshotId (fun id => if id = 7 then some 99 else none) (Value.number 7) =
      [Effect.SetReturnValue 99] ∧
    GetObjectBySnapshotId (fun id => if id = 7 then some 99 else none) (Value.number 8) =
      [Effect.ThrowException "no object found, have you taken a snapshot?"] := by
  refine ⟨by decide, by decide, by decide, ?_, by decide, by decide⟩
  intro obj
  rfl

/-! ## The two callbacks of one request -/

theorem consume_first (a : Nat) (s : State)
    (h : s.requests[a]? = some { data := SnapshotRequestData.new 2, live := true }) :
    consume a s = some (true,
      { s with requests := s.requests.set a { data := ⟨false, 1⟩, live := true } }) := by
  simp [consume, h, SnapshotRequestData.new]

theorem consume_second (a : Nat) (s : State)
    (h : s.requests[a]? = some { data := ⟨false, 1⟩, live := true }) :
    consume a s = some (false,
      { s with
        requests := s.requests.set a { data := ⟨false, 0⟩, live := false }
        freed := s.freed ++ [a] }) := by
  simp [consume, h]

theorem getElem?_set_self_of_some {α : Type} (l : List α) (a : Nat) (x y : α)
    (h : l[a]? = some x) : (l.set a y)[a]? = some y := by
  have hlt : a < l.length := by
    by_contra hge
    have : l[a]? = none := List.getElem?_eq_none (Nat.le_of_not_lt hge)
    rw [this] at h
    exact Option.noConfusion h
  simp [List.getElem?_set, hlt]

/-- C2, refuted as stated: on the request made by the first timer tick,
the completion callback called with the status `UV_ECANCELED` leaves
`pending` at 2; after it and the interrupt callback have both run, in either
order, the request is still allocated with `pending = 1` and nothing has
been freed. -/
theorem cancelled_completion_counterexample :
    AFTER_WORK_HeapSnapshot (-125) 1 10 0 (-125) (wake_agent State.init) =
      some (wake_agent State.init) ∧
    (wake_agent State.init).requests = [{ data := ⟨true, 2⟩, live := true }] ∧
    ((AFTER_WORK_HeapSnapshot (-125) 1 10 0 (-125) (wake_agent State.init)).bind
        (INTERRUPT_HeapSnapshot 1 10 0)).map
      (fun s => (s.requests, s.freed, s.work_calls)) =
      some ([{ data := ⟨false, 1⟩, live := true }], [], 1) ∧
    ((INTERRUPT_HeapSnapshot 1 10 0 (wake_agent State.init)).bind
        (AFTER_WORK_HeapSnapshot (-125) 1 10 0 (-125))).map
      (fun s => (s.requests, s.freed, s.work_calls)) =
      some ([{ data := ⟨false, 1⟩, live := true }], [], 1) := by
  decide

/-- C2, amended: for a request just made with completion count 2, the
completion callback called with the status `UV_ECANCELED` returns the state
as it was: it neither decrements `pending` nor runs `work()`.  In either
order relative to the interrupt callback, once both have run, `work()` has
run exactly once, by the interrupt callback; the request is allocated with
its flag cleared and `pending = 1`, and nothing has been freed. -/
theorem cancelled_completion_changes_nothing (E pid : Int) (u1 u2 : Nat) (a : Nat)
    (s : State)
    (hnew : s.requests[a]? = some { data := SnapshotRequestData.new 2, live := true }) :
    AFTER_WORK_HeapSnapshot E pid u1 a E s = some s ∧
    (∃ s2, (AFTER_WORK_HeapSnapshot E pid u1 a E s).bind (INTERRUPT_HeapSnapshot pid u2 a) =
        some s2 ∧
      s2 = work pid u2
        { s with requests := s.requests.set a { data := ⟨false, 1⟩, live := true } } ∧
      s2.work_calls = s.work_calls + 1 ∧ s2.freed = s.freed ∧
      s2.requests[a]? = some { data := ⟨false, 1⟩, live := true }) ∧
    (∃ s2, (INTERRUPT_HeapSnapshot pid u1 a s).bind (AFTER_WORK_HeapSnapshot E pid u2 a E) =
        some s2 ∧
      s2 = work pid u1
        { s with requests := s.requests.set a { data := ⟨false, 1⟩, live := true } } ∧
      s2.work_calls = s.work_calls + 1 ∧ s2.freed = s.freed ∧
      s2.requests[a]? = some { data := ⟨false, 1⟩, live := true }) := by
  have hcancel : ∀ (u : Nat) (t : State), AFTER_WORK_HeapSnapshot E pid u a E t = some t := by
    intro u t
    simp [AFTER_WORK_HeapSnapshot]
  have hlive : ∀ u : Nat, (work pid u
      { s with requests := s.requests.set a { data := ⟨false, 1⟩, live := true } }).requests[a]?
      = some { data := ⟨false, 1⟩, live := true } := by
    intro u
    simp only [work]
    exact getElem?_set_self_of_some _ _ _ _ hnew
  have hint : ∀ u : Nat, INTERRUPT_HeapSnapshot pid u a s = some (work pid u
      { s with requests := s.requests.set a { data := ⟨false, 1⟩, live := true } }) := by
    intro u
    simp [INTERRUPT_HeapSnapshot, consume_first a s hnew]
  refine ⟨hcancel u1 s, ⟨_, ?_, rfl, rfl, rfl, hlive u2⟩, ⟨_, ?_, rfl, rfl, rfl, hlive u1⟩⟩
  · rw [hcancel u1 s, Option.some_bind, hint u2]
  · rw [hint u1, Option.some_bind, hcancel u2]

/-- Witness of C2: the request made by the first timer tick, at address 0. -/
theorem cancelled_completion_changes_nothing_witness :
    (wake_agent State.init).requests[0]? =
      some { data := SnapshotRequestData.new 2, live := true } ∧
    AFTER_WORK_HeapSnapshot (-125) 7 10 0 (-125) (wake_agent State.init) =
      some (wake_agent State.init) :=
  ⟨by decide,
   (cancelled_completion_changes_nothing (-125) 7 10 11 0 (wake_agent State.init)
      (by decide)).1⟩

/-- C1: for a request just made with completion count 2 and a completion
status other than `UV_ECANCELED`, in both orders of the interrupt callback
and the completion callback: the first callback clears the flag, leaves
`pending = 1` and runs `work()`; the second changes nothing but the request,
which it frees with `pending = 0`.  So `work()` runs once and the request is
freed once, by the second callback. -/
theorem request_discharged_exactly_once (E pid : Int) (u1 u2 : Nat) (status : Int)
    (a : Nat) (s : State)
    (hnew : s.requests[a]? = some { data := SnapshotRequestData.new 2, live := true })
    (hstatus : status ≠ E) :
    (∃ s1 s2, INTERRUPT_HeapSnapshot pid u1 a s = some s1 ∧
      AFTER_WORK_HeapSnapshot E pid u2 a status s1 = some s2 ∧
      s1 = work pid u1
        { s with requests := s.requests.set a { data := ⟨false, 1⟩, live := true } } ∧
      s1.work_calls = s.work_calls + 1 ∧ s1.freed = s.freed ∧
      s1.requests[a]? = some { data := ⟨false, 1⟩, live := true } ∧
      s2 = { s1 with
        requests := s1.requests.set a { data := ⟨false, 0⟩, live := false }
        freed := s1.freed ++ [a] } ∧
      s2.work_calls = s.work_calls + 1 ∧ s2.freed = s.freed ++ [a] ∧
      s2.requests[a]? = some { data := ⟨false, 0⟩, live := false }) ∧
    (∃ s1 s2, AFTER_WORK_HeapSnapshot E pid u1 a status s = some s1 ∧
      INTERRUPT_HeapSnapshot pid u2 a s1 = some s2 ∧
      s1 = work pid u1
        { s with requests := s.requests.set a { data := ⟨false, 1⟩, live := true } } ∧
      s1.work_calls = s.work_calls + 1 ∧ s1.freed = s.freed ∧
      s1.requests[a]? = some { data := ⟨false, 1⟩, live := true } ∧
      s2 = { s1 with
        requests := s1.requests.set a { data := ⟨false, 0⟩, live := false }
        freed := s1.freed ++ [a] } ∧
      s2.work_calls = s.work_calls + 1 ∧ s2.freed = s.freed ++ [a] ∧
      s2.requests[a]? = some { data := ⟨false, 0⟩, live := false }) := by
  have h1 : (work pid u1
      { s with requests := s.requests.set a { data := ⟨false, 1⟩, live := true } }).requests[a]?
      = some { data := ⟨false, 1⟩, live := true } := by
    simp only [work]
    exact getElem?_set_self_of_some _ _ _ _ hnew
  have h2 := getElem?_set_self_of_some _ a _
    ({ data := ⟨false, 0⟩, live := false } : RequestCell) h1
  constructor
  · refine ⟨_, _, ?_, ?_, rfl, rfl, rfl, h1, rfl, rfl, rfl, h2⟩
    · simp [INTERRUPT_HeapSnapshot, consume_first a s hnew]
    · simp [AFTER_WORK_HeapSnapshot, hstatus, consume_second a _ h1]
  · refine ⟨_, _, ?_, ?_, rfl, rfl, rfl, h1, rfl, rfl, rfl, h2⟩
    · simp [AFTER_WORK_HeapSnapshot, hstatus, consume_first a s hnew]
    · simp [INTERRUPT_HeapSnapshot, consume_second a _ h1]

/-- Witness of C1: the request made by the first timer tick, at address 0,
with the completion status 0. -/
theorem request_discharged_exactly_once_witness :
    (wake_agent State.init).requests[0]? =
      some { data := SnapshotRequestData.new 2, live := true } ∧
    (0 : Int) ≠ -125 ∧
    (∃ s1 s2, INTERRUPT_HeapSnapshot 7 10 0 (wake_agent State.init) = some s1 ∧
      AFTER_WORK_HeapSnapshot (-125) 7 11 0 0 s1 = some s2 ∧
      s2.work_calls = 1 ∧ s2.freed = [0]) ∧
    (∃ s1 s2, AFTER_WORK_HeapSnapshot (-125) 7 10 0 0 (wake_agent State.init) = some s1 ∧
      INTERRUPT_HeapSnapshot 7 11 0 s1 = some s2 ∧
      s2.work_calls = 1 ∧ s2.freed = [0]) := by
  have h := request_discharged_exactly_once (-125) 7 10 11 0 0 (wake_agent State.init)
    (by decide) (by decide)
  refine ⟨by decide, by decide, ?_, ?_⟩
  · obtain ⟨s1, s2, e1, e2, _, _, _, _, _, hw, hf, _⟩ := h.1
    exact ⟨s1, s2, e1, e2, hw, hf⟩
  · obtain ⟨s1, s2, e1, e2, _, _, _, _, _, hw, hf, _⟩ := h.2
    exact ⟨s1, s2, e1, e2, hw, hf⟩

/-! ## The statistics timeline -/

theorem record_eq_take (x : Nat) (tl : List Nat) :
    record x tl = (x :: tl).take statistics_timeline_max_size := by
  simp only [record]
  by_cases h : (x :: tl).length > statistics_timeline_max_size
  · rw [if_pos h]
  · rw [if_neg h]
    exact (List.take_of_length_le (Nat.le_of_not_lt h)).symm

theorem take_append_take {α : Type} (n : Nat) (l1 l2 : List α) :
    (l1 ++ l2.take n).take n = (l1 ++ l2).take n := by
  rw [List.take_append_eq_append_take, List.take_append_eq_append_take, List.take_take,
    Nat.min_eq_left (Nat.sub_le _ _)]

theorem foldl_record (xs : List Nat) (tl : List Nat)
    (h : tl.length ≤ statistics_timeline_max_size) :
    xs.foldl (fun t x => record x t) tl =
      (xs.reverse ++ tl).take statistics_timeline_max_size := by
  induction xs generalizing tl with
  | nil => simpa using (List.take_of_length_le h).symm
  | cons x xs ih =>
    have hlen : (record x tl).length ≤ statistics_timeline_max_size := by
      rw [record_eq_take]
      exact List.length_take_le _ _
    rw [List.foldl_cons, ih _ hlen, record_eq_take, take_append_take]
    simp

theorem foldl_work_timeline (pid : Int) (xs : List Nat) (s : State) :
    (xs.foldl (fun st x => work pid x st) s).statistics_timeline =
      xs.foldl (fun t x => record x t) s.statistics_timeline := by
  induction xs generalizing s with
  | nil => rfl
  | cons x xs ih => rw [List.foldl_cons, ih, List.foldl_cons]; rfl

theorem foldl_work_mean (pid : Int) (xs : List Nat) (s : State) (h : xs ≠ []) :
    (xs.foldl (fun st x => work pid x st) s).mean =
      timeline_mean (xs.foldl (fun st x => work pid x st) s).statistics_timeline := by
  induction xs generalizing s with
  | nil => exact absurd rfl h
  | cons x xs ih =>
    by_cases hx : xs = []
    · subst hx; rfl
    · rw [List.foldl_cons]; exact ih _ hx

theorem timeline_sum_eq_aux (tl : List Nat) (a : Nat) :
    tl.foldl (fun sum x => (sum + x) % 18446744073709551616) (a % 18446744073709551616) =
      (a + tl.sum) % 18446744073709551616 := by
  induction tl generalizing a with
  | nil => simp
  | cons x tl ih =>
    rw [List.foldl_cons, Nat.mod_add_mod, ih, List.sum_cons, Nat.add_assoc]

theorem timeline_sum_eq (tl : List Nat) :
    timeline_sum tl = tl.sum % 18446744073709551616 := by
  have h := timeline_sum_eq_aux tl 0
  simpa [timeline_sum] using h

/-- C3: after the samples `xs` have been recorded one after another by
`work()` into an empty timeline, the timeline holds the last
`min xs.length 120` samples, most recent first, and nothing else; its length
is `min xs.length 120`, hence at most 120. -/
theorem timeline_keeps_latest_samples (pid : Int) (s : State) (xs : List Nat)
    (hempty : s.statistics_timeline = []) :
    (xs.foldl (fun st x => work pid x st) s).statistics_timeline =
        xs.reverse.take (min xs.length 120) ∧
      (xs.foldl (fun st x => work pid x st) s).statistics_timeline =
        (xs.drop (xs.length - min xs.length 120)).reverse ∧
      (xs.foldl (fun st x => work pid x st) s).statistics_timeline.length =
        min xs.length 120 ∧
      (xs.foldl (fun st x => work pid x st) s).statistics_timeline.length ≤ 120 := by
  have h : (xs.foldl (fun st x => work pid x st) s).statistics_timeline =
      xs.reverse.take 120 := by
    rw [foldl_work_timeline, hempty, foldl_record _ _ (by simp)]
    simp [statistics_timeline_max_size]
  have h1 : xs.reverse.take 120 = xs.reverse.take (min xs.length 120) := by
    by_cases hl : xs.length ≤ 120
    · rw [Nat.min_eq_left hl, List.take_of_length_le (by simpa using hl),
        List.take_of_length_le (by simp)]
    · rw [Nat.min_eq_right (Nat.le_of_not_le hl)]
  refine ⟨h.trans h1, ?_, ?_, ?_⟩
  · rw [h, h1, List.take_reverse]
  · rw [h]; simp [Nat.min_comm]
  · rw [h]; exact List.length_take_le _ _

/-- Witness of C3: 130 samples recorded from the freshly loaded module. -/
theorem timeline_keeps_latest_samples_witness :
    State.init.statistics_timeline = [] ∧
    ((List.range 130).foldl (fun st x => work 1 x st) State.init).statistics_timeline.length
      ≤ 120 :=
  ⟨rfl, (timeline_keeps_latest_samples 1 State.init (List.range 130) rfl).2.2.2⟩

/-- C4, refuted as stated: two samples of `2^63` each, both `uint64_t`
values, have the integer sum `2^64` and the quotient `2^63`, yet the mean
that `work()` computes after the second one is 0. -/
theorem mean_counterexample :
    ([9223372036854775808, 9223372036854775808].foldl
        (fun st x => work 1 x st) State.init).mean = some 0 ∧
    ([9223372036854775808, 9223372036854775808].foldl
        (fun st x => work 1 x st) State.init).mean ≠
      some (([9223372036854775808, 9223372036854775808] : List Nat).sum /
        ([9223372036854775808, 9223372036854775808] : List Nat).length) := by
  decide

/-- C4, amended: after the samples `vs`, at least one and at most 120,
have been recorded into an empty timeline, the mean computed by `work()`
after the last one is the sum of the samples reduced modulo `2^64`, divided
(floor) by the number of samples; it is the quotient of the integer sum
whenever that sum is below `2^64`.  The divisor is the entry count, equal to
the number of samples and at least 1, so the division is defined. -/
theorem mean_is_wrapped_sum_over_count (pid : Int) (s : State) (vs : List Nat)
    (hempty : s.statistics_timeline = []) (hne : vs ≠ []) (hlen : vs.length ≤ 120) :
    (vs.foldl (fun st x => work pid x st) s).mean =
        some (vs.sum % 18446744073709551616 / vs.length) ∧
      (vs.sum < 18446744073709551616 →
        (vs.foldl (fun st x => work pid x st) s).mean = some (vs.sum / vs.length)) ∧
      (vs.foldl (fun st x => work pid x st) s).statistics_timeline.length = vs.length ∧
      1 ≤ vs.length := by
  have htl : (vs.foldl (fun st x => work pid x st) s).statistics_timeline = vs.reverse := by
    rw [foldl_work_timeline, hempty, foldl_record _ _ (by simp), List.append_nil]
    exact List.take_of_length_le (by simpa [statistics_timeline_max_size] using hlen)
  have hpos : 1 ≤ vs.length := by
    cases vs with
    | nil => exact absurd rfl hne
    | cons v vs => simp
  have hmean : (vs.foldl (fun st x => work pid x st) s).mean =
      some (vs.sum % 18446744073709551616 / vs.length) := by
    rw [foldl_work_mean pid vs s hne, htl]
    have h0 : ¬ vs.length = 0 := by omega
    simp only [timeline_mean, timeline_sum_eq, List.sum_reverse, List.length_reverse,
      if_neg h0]
  refine ⟨hmean, ?_, ?_, hpos⟩
  · intro hsum
    rw [hmean, Nat.mod_eq_of_lt hsum]
  · rw [htl, List.length_reverse]

/-- Witness of C4: the samples 10, 20 and 31 recorded from the freshly
loaded module. -/
theorem mean_is_wrapped_sum_over_count_witness :
    State.init.statistics_timeline = [] ∧ ([10, 20, 31] : List Nat) ≠ [] ∧
    ([10, 20, 31] : List Nat).length ≤ 120 ∧
    ([10, 20, 31].foldl (fun st x => work 1 x st) State.init).mean =
      some (([10, 20, 31] : List Nat).sum % 18446744073709551616 /
        ([10, 20, 31] : List Nat).length) :=
  ⟨rfl, by decide, by decide,
   (mean_is_wrapped_sum_over_count 1 State.init [10, 20, 31] rfl (by decide) (by decide)).1⟩

/-! ## Snapshot numbering and paths -/

theorem wrap_int32_succ (x : Int) : wrap_int32 (wrap_int32 x + 1) = wrap_int32 (x + 1) := by
  unfold wrap_int32
  omega

theorem wrap_int32_of_small (n : Nat) (h : n < 2147483648) : wrap_int32 n = n := by
  unfold wrap_int32
  omega

theorem snapshots_taken_directory (pid : Int) (n : Nat) :
    (snapshots_taken pid n).destination_directory = "./" := by
  induction n with
  | zero => rfl
  | succ n ih => simpa [snapshots_taken, HeapSnapshot] using ih

theorem snapshots_taken_number (pid : Int) (n : Nat) :
    (snapshots_taken pid n).snapshot_number = wrap_int32 n := by
  induction n with
  | zero => rfl
  | succ n ih =>
    simp only [snapshots_taken, HeapSnapshot, ih]
    rw [wrap_int32_succ]
    norm_cast

theorem to_string_natCast (k : Nat) : to_string (k : Int) = Nat.repr k := by
  have h : ¬ ((k : Int) < 0) := by omega
  simp [to_string, h]

theorem snapshot_path_eq (pid : Int) (n : Nat) :
    snapshot_path pid n =
      "./" ++ to_string pid ++ "." ++ to_string (wrap_int32 n) ++ ".heapsnapshot" := by
  simp only [snapshot_path, HeapSnapshot, snapshots_taken_number, snapshots_taken_directory]

theorem to_string_int_min : to_string (-2147483648) = "-" ++ Nat.repr 2147483648 := by
  have hlt : ((-2147483648 : Int) < 0) := by decide
  have habs : Int.natAbs (-2147483648) = 2147483648 := by decide
  simp only [to_string, if_pos hlt, habs]

/-- C8, refuted as stated: the counter is an `int`; after `2^31` snapshots
it is `-2^31`, not `2^31`, and the next snapshot is written to a path whose
number is rendered with a minus sign. -/
theorem snapshot_counter_counterexample :
    (snapshots_taken 1 2147483648).snapshot_number = -2147483648 ∧
    (snapshots_taken 1 2147483648).snapshot_number ≠ ((2147483648 : Nat) : Int) ∧
    snapshot_path 1 2147483648 =
      "./" ++ to_string 1 ++ "." ++ ("-" ++ Nat.repr 2147483648) ++ ".heapsnapshot" := by
  have hw : wrap_int32 ((2147483648 : Nat) : Int) = -2147483648 := by decide
  refine ⟨?_, ?_, ?_⟩
  · rw [snapshots_taken_number, hw]
  · rw [snapshots_taken_number, hw]; decide
  · rw [snapshot_path_eq, hw, to_string_int_min]

/-- C8, amended: from the initial metadata (counter 0, directory "./"),
for every `k` below `2^31`: snapshot number `k` is written to the directory,
then the process id in decimal, ".", `k` in decimal and ".heapsnapshot";
the counter after `k` snapshots is `k`, and one more after the next
snapshot when that is still below `2^31`; the directory stays "./". -/
theorem snapshot_path_and_counter (pid : Int) (k : Nat) (hk : k < 2147483648) :
    snapshot_path pid k = "./" ++ to_string pid ++ "." ++ Nat.repr k ++ ".heapsnapshot" ∧
    (snapshots_taken pid k).snapshot_number = k ∧
    (k + 1 < 2147483648 →
      (snapshots_taken pid (k + 1)).snapshot_number =
        (snapshots_taken pid k).snapshot_number + 1) ∧
    (snapshots_taken pid k).destination_directory = "./" ∧
    (snapshots_taken pid (k + 1)).destination_directory = "./" := by
  have hnum := snapshots_taken_number pid k
  rw [wrap_int32_of_small k hk] at hnum
  refine ⟨?_, hnum, ?_, snapshots_taken_directory pid k, snapshots_taken_directory pid (k + 1)⟩
  · rw [snapshot_path_eq, wrap_int32_of_small k hk, to_string_natCast]
  · intro hk1
    rw [snapshots_taken_number, wrap_int32_of_small _ hk1, hnum]
    norm_cast

/-- Witness of C8: snapshot number 5 of process 42. -/
theorem snapshot_path_and_counter_witness :
    (5 : Nat) < 2147483648 ∧
    snapshot_path 42 5 = "./42.5.heapsnapshot" ∧
    (snapshots_taken 42 5).snapshot_number = 5 :=
  ⟨by decide, (snapshot_path_and_counter 42 5 (by decide)).1.trans (by decide),
   (snapshot_path_and_counter 42 5 (by decide)).2.1⟩

/-! ## Backpressure: at most one request awaits its action -/

theorem needs_action_work (pid : Int) (used : Nat) (s : State) (b : Nat) :
    needs_action (work pid used s) b = needs_action s b := rfl

theorem consume_some (a : Nat) (s s1 : State) (need : Bool)
    (h : consume a s = some (need, s1)) :
    ∃ c cell, s.requests[a]? = some c ∧ c.live = true ∧ need = c.data.need_action ∧
      cell.data.need_action = false ∧
      s1.requests = s.requests.set a cell ∧
      s1.current_snapshot_req = s.current_snapshot_req := by
  unfold consume at h
  cases hc : s.requests[a]? with
  | none => rw [hc] at h; exact Option.noConfusion h
  | some c =>
    rw [hc] at h
    by_cases hl : c.live = true
    · simp only [hl, if_true, Option.some.injEq, Prod.mk.injEq] at h
      obtain ⟨h1, h2⟩ := h
      subst h2
      exact ⟨c, _, rfl, hl, h1.symm, rfl, rfl, rfl⟩
    · simp [hl] at h

theorem needs_action_set_self (s s1 : State) (a : Nat) (cell : RequestCell)
    (hreq : s1.requests = s.requests.set a cell) (hcell : cell.data.need_action = false) :
    needs_action s1 a = false := by
  unfold needs_action
  rw [hreq, List.getElem?_set]
  by_cases hlt : a < s.requests.length
  · simp [hlt, hcell]
  · simp [hlt]

theorem needs_action_set_other (s s1 : State) (a b : Nat) (cell : RequestCell)
    (hreq : s1.requests = s.requests.set a cell) (hab : a ≠ b) :
    needs_action s1 b = needs_action s b := by
  unfold needs_action
  rw [hreq, List.getElem?_set_ne hab]

theorem callback_preserves (pid : Int) (used : Nat) (a : Nat) (s s1 : State)
    (hinv : ∀ b, needs_action s b = true ↔ s.current_snapshot_req = some b)
    (hrun : (match consume a s with
      | none => none
      | some (need_action, s1) =>
        if need_action then some (work pid used s1) else some s1) = some s1) :
    ∀ b, needs_action s1 b = true ↔ s1.current_snapshot_req = some b := by
  cases hc : consume a s with
  | none => rw [hc] at hrun; exact Option.noConfusion hrun
  | some r =>
    obtain ⟨need, s2⟩ := r
    rw [hc] at hrun
    obtain ⟨c, cell, hget, hlive, hneed, hcell, hreq, hcur⟩ := consume_some a s s2 need hc
    have hna : needs_action s a = need := by
      simp [needs_action, hget, hlive, hneed]
    intro b
    cases need with
    | true =>
      simp only [if_true, Option.some.injEq] at hrun
      subst hrun
      have hcura : s.current_snapshot_req = some a := (hinv a).1 hna
      rw [needs_action_work]
      by_cases hab : a = b
      · subst hab
        rw [needs_action_set_self s s2 a cell hreq hcell]
        simp [work]
      · rw [needs_action_set_other s s2 a b cell hreq hab]
        have : ¬ needs_action s b = true := by
          intro hb
          have := (hinv b).1 hb
          rw [hcura] at this
          exact hab (Option.some.inj this)
        simp [work, this]
    | false =>
      simp only [Bool.false_eq_true, if_false, Option.some.injEq] at hrun
      subst hrun
      rw [hcur]
      by_cases hab : a = b
      · subst hab
        rw [needs_action_set_self s s2 a cell hreq hcell]
        have : ¬ needs_action s a = true := by rw [hna]; simp
        rw [← hinv a]
        simp [this]
      · rw [needs_action_set_other s s2 a b cell hreq hab]
        exact hinv b

theorem wake_agent_preserves (s : State)
    (hinv : ∀ b, needs_action s b = true ↔ s.current_snapshot_req = some b) :
    ∀ b, needs_action (wake_agent s) b = true ↔ (wake_agent s).current_snapshot_req = some b := by
  intro b
  cases hcur : s.current_snapshot_req with
  | some a =>
    have : wake_agent s = s := by simp [wake_agent, hcur]
    rw [this, hcur]
    have := hinv b
    rwa [hcur] at this
  | none =>
    have hnone : ∀ c, ¬ needs_action s c = true := by
      intro c hc
      have := (hinv c).1 hc
      rw [hcur] at this
      exact Option.noConfusion this
    simp only [wake_agent, hcur, needs_action]
    rcases Nat.lt_trichotomy b s.requests.length with hlt | heq | hgt
    · rw [List.getElem?_append_left hlt]
      have hb := hnone b
      unfold needs_action at hb
      constructor
      · intro h; exact absurd h hb
      · intro h
        have := Option.some.inj h
        omega
    · subst heq
      simp [SnapshotRequestData.new]
    · rw [List.getElem?_eq_none (by simp; omega)]
      constructor
      · intro h; simp at h
      · intro h
        have := Option.some.inj h
        omega

theorem reachable_invariant (E : Int) (s0 s : State) (h0req : s0.requests = [])
    (h0cur : s0.current_snapshot_req = none) (hreach : Reachable E s0 s) :
    ∀ b, needs_action s b = true ↔ s.current_snapshot_req = some b := by
  induction hreach with
  | start =>
    intro b
    simp [needs_action, h0req, h0cur]
  | step s s1 _ hstep ih =>
    cases hstep with
    | tick => exact wake_agent_preserves s ih
    | interrupt pid used a _ _ hrun =>
      exact callback_preserves pid used a s s1 ih hrun
    | after_work pid used a status _ _ hlive hrun =>
      unfold AFTER_WORK_HeapSnapshot at hrun
      by_cases hst : status ≠ E
      · rw [if_pos hst] at hrun
        exact callback_preserves pid used a s s1 ih hrun
      · rw [if_neg hst] at hrun
        have := Option.some.inj hrun
        subst this
        exact ih

/-- C7: in every state reachable from a state without requests by timer
ticks, interrupt callbacks and completion callbacks (of any status) on live
requests: at most one live request has `need_action` set;
`current_snapshot_req` points at a request exactly when that request is live
with the flag set, and is null exactly when there is none; a tick with the
pointer set returns the state unchanged; a tick with the pointer null
allocates one request with `need_action` set and `pending = 2`, makes the
pointer designate it and hands it to `uv_queue_work` and to
`RequestInterrupt`, changing nothing else. -/
theorem backpressure_invariant (E : Int) (s0 s : State) (h0req : s0.requests = [])
    (h0cur : s0.current_snapshot_req = none) (hreach : Reachable E s0 s) :
    (∀ a b, needs_action s a = true → needs_action s b = true → a = b) ∧
    (∀ a, s.current_snapshot_req = some a ↔ needs_action s a = true) ∧
    (s.current_snapshot_req = none ↔ ∀ a, needs_action s a = false) ∧
    (s.current_snapshot_req ≠ none → wake_agent s = s) ∧
    (s.current_snapshot_req = none →
      wake_agent s =
        { s with
          requests := s.requests ++ [{ data := ⟨true, 2⟩, live := true }]
          current_snapshot_req := some s.requests.length
          queued_work := s.queued_work ++ [s.requests.length]
          interrupts := s.interrupts ++ [s.requests.length] }) := by
  have hinv := reachable_invariant E s0 s h0req h0cur hreach
  refine ⟨?_, ?_, ?_, ?_, ?_⟩
  · intro a b ha hb
    have h1 := (hinv a).1 ha
    have h2 := (hinv b).1 hb
    rw [h1] at h2
    exact Option.some.inj h2
  · intro a
    exact (hinv a).symm
  · constructor
    · intro hnone a
      cases hna : needs_action s a with
      | false => rfl
      | true =>
        have := (hinv a).1 hna
        rw [hnone] at this
        exact Option.noConfusion this
    · intro hall
      cases hcur : s.current_snapshot_req with
      | none => rfl
      | some a =>
        have := (hinv a).2 hcur
        rw [hall a] at this
        exact Bool.noConfusion this
  · intro hne
    cases hcur : s.current_snapshot_req with
    | none => exact absurd hcur hne
    | some a => simp [wake_agent, hcur]
  · intro hnone
    simp [wake_agent, hnone, SnapshotRequestData.new]

/-- Witness of C7: the state after the first timer tick. -/
theorem backpressure_invariant_witness :
    State.init.requests = [] ∧ State.init.current_snapshot_req = none ∧
    Reachable (-125) State.init (wake_agent State.init) ∧
    ((wake_agent State.init).current_snapshot_req ≠ none →
      wake_agent (wake_agent State.init) = wake_agent State.init) :=
  ⟨rfl, rfl, Reachable.step _ _ Reachable.start (Step.tick _),
   (backpressure_invariant (-125) State.init (wake_agent State.init) rfl rfl
      (Reachable.step _ _ Reachable.start (Step.tick _))).2.2.2.1⟩

/-! ## WriteAsciiChunk -/

theorem wrap_int64_of_range (x : Int) (hlo : -9223372036854775808 ≤ x)
    (hhi : x ≤ 9223372036854775807) : wrap_int64 x = x := by
  unfold wrap_int64
  omega

theorem write_at_nil (content : List Char) (off : Nat) : write_at content off [] = content := by
  simp [write_at]

theorem write_at_write_at (content : List Char) (off : Nat) (b1 b2 : List Char) :
    write_at (write_at content off b1) (off + b1.length) b2 =
      write_at content off (b1 ++ b2) := by
  by_cases h1 : b1 = []
  · subst h1
    simp [write_at_nil]
  by_cases h2 : b2 = []
  · subst h2
    simp [write_at_nil]
  have h12 : ¬ b1 ++ b2 = [] := by simp [h1]
  have hA : (content.take off ++
      List.replicate (off - content.length) (Char.ofNat 0)).length = off := by
    simp only [List.length_append, List.length_take, List.length_replicate]
    omega
  have hAb : (content.take off ++ List.replicate (off - content.length) (Char.ofNat 0) ++
      b1).length = off + b1.length := by
    rw [List.length_append, hA]
  simp only [write_at, if_neg h1, if_neg h2, if_neg h12]
  have htake : List.take (off + b1.length)
      (content.take off ++ List.replicate (off - content.length) (Char.ofNat 0) ++ b1 ++
        content.drop (off + b1.length)) =
      content.take off ++ List.replicate (off - content.length) (Char.ofNat 0) ++ b1 :=
    List.take_left' hAb
  have hdrop : List.drop (off + b1.length + b2.length)
      (content.take off ++ List.replicate (off - content.length) (Char.ofNat 0) ++ b1 ++
        content.drop (off + b1.length)) =
      content.drop (off + (b1 ++ b2).length) := by
    rw [← hAb, List.drop_append, List.drop_drop, hAb, List.length_append, Nat.add_assoc]
  have hlen : off + b1.length - (content.take off ++
      List.replicate (off - content.length) (Char.ofNat 0) ++ b1 ++
        content.drop (off + b1.length)).length = 0 := by
    rw [List.length_append, hAb]
    omega
  rw [htake, hdrop, hlen]
  simp

theorem while_abort (file : File) (offset size : Int) (buf : List Char) (result : Int)
    (calls : List WriteCall) (outcomes : List Int) (hneg : result < 0) (hsize : 0 ≤ size) :
    WriteAsciiChunk_while file offset size buf result calls outcomes =
      some (WriteResult.kAbort, offset, calls, file) := by
  have hlt : result < size := by omega
  cases outcomes with
  | nil => simp [WriteAsciiChunk_while, hlt, hneg]
  | cons w rest => simp [WriteAsciiChunk_while, hlt, hneg]

theorem uv_fs_write_in_range (file : File) (offset : Int) (buf : List Char) (w : Int)
    (hoff : 0 ≤ offset) (hhi : offset + buf.length ≤ 9223372036854775807) :
    uv_fs_write file offset buf w =
      if w < 0 then (file, w)
      else ({ content := write_at file.content offset.toNat (buf.take w.toNat),
              position := file.position }, w) := by
  have h1 : ¬ offset < 0 := by omega
  have h2 : ¬ (9223372036854775807 < offset + buf.length) := by omega
  simp [uv_fs_write, h1, h2]

theorem while_spec (o : Int) (data : List Char) (hlo : 0 ≤ o)
    (hhi : o + data.length ≤ 9223372036854775807) (outcomes : List Int) :
    ∀ (p : Nat) (result : Int) (before : List WriteCall) (file : File), p ≤ data.length →
      Covering (data.length - p) (result :: outcomes) →
      ∃ out off tail file1,
        WriteAsciiChunk_while file (o + p) ((data.length : Int) - p) (data.drop p) result
            (before ++ [{ offset := o + p, buf := data.drop p, result := result }]) outcomes =
          some (out, off,
            before ++ { offset := o + p, buf := data.drop p, result := result } :: tail,
            file1) ∧
        result :: tail.map (fun c => c.result) = (result :: outcomes).take (tail.length + 1) ∧
        Consecutive o data (p + result.toNat) tail ∧
        off = o + ((p + result.toNat + bytes_accepted tail : Nat) : Int) ∧
        file1.content = write_at file.content (o.toNat + (p + result.toNat))
          ((data.drop (p + result.toNat)).take (bytes_accepted tail)) ∧
        file1.position = file.position ∧
        ((out = WriteResult.kContinue ∧ 1 ≤ result ∧ (∀ c ∈ tail, 1 ≤ c.result) ∧
            p + result.toNat + bytes_accepted tail = data.length) ∨
          (out = WriteResult.kAbort ∧
            ((result < 0 ∧ tail = []) ∨
              (1 ≤ result ∧ ∃ pre c, tail = pre ++ [c] ∧ c.result < 0 ∧
                ∀ x ∈ pre, 1 ≤ x.result)))) := by
  induction outcomes with
  | nil =>
    intro p result before file hp hadm
    simp only [Covering] at hadm
    rcases hadm with hneg | ⟨h1, h2, h3 | h3⟩
    · refine ⟨WriteResult.kAbort, o + p, [], file, ?_, by simp, trivial, ?_, ?_, rfl,
        Or.inr ⟨rfl, Or.inl ⟨hneg, rfl⟩⟩⟩
      · exact while_abort _ _ _ _ _ _ _ hneg (by omega)
      · simp [bytes_accepted]; omega
      · simp [bytes_accepted, write_at_nil]
    · refine ⟨WriteResult.kContinue, o + data.length, [], file, ?_, by simp, trivial, ?_, ?_,
        rfl, Or.inl ⟨rfl, h1, by simp, ?_⟩⟩
      · have hlt : ¬ result < (data.length : Int) - p := by omega
        have hw : wrap_int64 (o + p + result) = o + data.length := by
          rw [wrap_int64_of_range] <;> omega
        simp [WriteAsciiChunk_while, hlt, hw]
      · simp [bytes_accepted]; omega
      · simp [bytes_accepted, write_at_nil]
      · simp [bytes_accepted]; omega
    · exact h3.elim
  | cons w rest ih =>
    intro p result before file hp hadm
    simp only [Covering] at hadm
    by_cases hneg : result < 0
    · refine ⟨WriteResult.kAbort, o + p, [], file, ?_, by simp, trivial, ?_, ?_, rfl,
        Or.inr ⟨rfl, Or.inl ⟨hneg, rfl⟩⟩⟩
      · exact while_abort _ _ _ _ _ _ _ hneg (by omega)
      · simp [bytes_accepted]; omega
      · simp [bytes_accepted, write_at_nil]
    · have hadm1 : 1 ≤ result ∧ result ≤ ((data.length - p : Nat) : Int) ∧
          (result = ((data.length - p : Nat) : Int) ∨
            Covering (data.length - p - result.toNat) (w :: rest)) := by
        rcases hadm with h | h
        · exact absurd h hneg
        · exact h
      obtain ⟨h1, h2, h3⟩ := hadm1
      by_cases hfull : result = ((data.length - p : Nat) : Int)
      · refine ⟨WriteResult.kContinue, o + data.length, [], file, ?_, by simp, trivial, ?_,
          ?_, rfl, Or.inl ⟨rfl, h1, by simp, ?_⟩⟩
        · have hlt : ¬ result < (data.length : Int) - p := by omega
          have hw : wrap_int64 (o + p + result) = o + data.length := by
            rw [wrap_int64_of_range] <;> omega
          simp [WriteAsciiChunk_while, hlt, hw]
        · simp [bytes_accepted]; omega
        · simp [bytes_accepted, write_at_nil]
        · simp [bytes_accepted]; omega
      · have hadm2 : Covering (data.length - (p + result.toNat)) (w :: rest) := by
          rcases h3 with h | h
          · exact absurd h hfull
          · rwa [Nat.sub_sub] at h
        have hp2 : p + result.toNat ≤ data.length := by omega
        have hlt : result < (data.length : Int) - p := by omega
        have hw : wrap_int64 (o + p + result) = o + ((p + result.toNat : Nat) : Int) := by
          rw [wrap_int64_of_range] <;> omega
        have hsize : (data.length : Int) - p - result =
            (data.length : Int) - ((p + result.toNat : Nat) : Int) := by omega
        have hbuf : (data.drop p).drop result.toNat = data.drop (p + result.toNat) := by
          rw [List.drop_drop]
        have hbuflen : (data.drop (p + result.toNat)).length =
            data.length - (p + result.toNat) := List.length_drop _ _
        have hwrange : w < 0 ∨ (1 ≤ w ∧ w ≤ ((data.length - (p + result.toNat) : Nat) : Int)) := by
          simp only [Covering] at hadm2
          rcases hadm2 with h | ⟨ha, hb, _⟩
          · exact Or.inl h
          · exact Or.inr ⟨ha, hb⟩
        have hprim := uv_fs_write_in_range file (o + ((p + result.toNat : Nat) : Int))
          (data.drop (p + result.toNat)) w (by omega) (by rw [hbuflen]; omega)
        have hres : (uv_fs_write file (o + ((p + result.toNat : Nat) : Int))
            (data.drop (p + result.toNat)) w).2 = w := by
          rw [hprim]; split <;> rfl
        have hpos : (uv_fs_write file (o + ((p + result.toNat : Nat) : Int))
            (data.drop (p + result.toNat)) w).1.position = file.position := by
          rw [hprim]; split <;> rfl
        have htoNat : (o + ((p + result.toNat : Nat) : Int)).toNat =
            o.toNat + (p + result.toNat) := by omega
        obtain ⟨out, off, tail, file1, hrun, hseq, hcons, hoff, hcontent, hposition, hcase⟩ :=
          ih (p + result.toNat) w
            (before ++ [{ offset := o + p, buf := data.drop p, result := result }])
            (uv_fs_write file (o + ((p + result.toNat : Nat) : Int))
              (data.drop (p + result.toNat)) w).1 hp2 hadm2
        refine ⟨out, off,
          { offset := o + ((p + result.toNat : Nat) : Int),
            buf := data.drop (p + result.toNat), result := w } :: tail, file1,
          ?_, ?_, ?_, ?_, ?_, ?_, ?_⟩
        · rw [WriteAsciiChunk_while]
          simp only [hlt, hneg, if_true, if_false, hw, hsize, hbuf, hres]
          rw [hrun]
          simp
        · simp only [List.map_cons, List.length_cons, List.take_succ_cons]
          rw [hseq]
          simp
        · exact ⟨rfl, rfl, hcons⟩
        · rw [hoff]
          simp [bytes_accepted]
          omega
        · rw [hcontent]
          have hbytes : bytes_accepted
              ({ offset := o + ((p + result.toNat : Nat) : Int),
                 buf := data.drop (p + result.toNat), result := w } :: tail) =
              w.toNat + bytes_accepted tail := by
            simp [bytes_accepted]
          rw [hbytes]
          rcases hwrange with hwneg | ⟨hw1, hw2⟩
          · have hz : w.toNat = 0 := by omega
            rw [hprim, if_pos hwneg, hz]
            simp
          · have hnn : ¬ w < 0 := by omega
            have hb1 : ((data.drop (p + result.toNat)).take w.toNat).length = w.toNat := by
              rw [List.length_take, hbuflen]; omega
            rw [hprim, if_neg hnn, htoNat]
            simp only
            rw [List.take_add, ← write_at_write_at, hb1, List.drop_drop]
            simp only [Nat.add_assoc]
        · rw [hposition, hpos]
        · rcases hcase with ⟨hout, hr1, hall, hsum⟩ | ⟨hout, habort⟩
          · refine Or.inl ⟨hout, h1, ?_, ?_⟩
            · intro c hc
              rcases List.mem_cons.1 hc with h | h
              · rw [h]; exact hr1
              · exact hall c h
            · simp [bytes_accepted] at hsum ⊢
              omega
          · refine Or.inr ⟨hout, Or.inr ⟨h1, ?_⟩⟩
            rcases habort with ⟨hrneg, htail⟩ | ⟨hr1, pre, c, htail, hc, hpre⟩
            · subst htail
              exact ⟨[], _, rfl, hrneg, by simp⟩
            · subst htail
              refine ⟨_ :: pre, c, rfl, hc, ?_⟩
              · intro x hx
                rcases List.mem_cons.1 hx with h | h
                · rw [h]; exact hr1
                · exact hpre x h

theorem covering_of_admissible (outcomes : List Int) :
    ∀ n : Nat, Admissible n outcomes → max 1 n ≤ outcomes.length → Covering n outcomes := by
  induction outcomes with
  | nil =>
    intro n _ hlen
    simp at hlen
  | cons r rest ih =>
    intro n hadm hlen
    simp only [Admissible] at hadm
    simp only [Covering]
    rcases hadm with h | ⟨h1, h2, h3⟩
    · exact Or.inl h
    · refine Or.inr ⟨h1, h2, ?_⟩
      by_cases hfull : r = (n : Int)
      · exact Or.inl hfull
      · rcases h3 with h | h
        · exact absurd h hfull
        · refine Or.inr (ih _ h ?_)
          simp only [List.length_cons] at hlen
          omega

theorem accepted_flatten (o : Int) (data : List Char) (calls : List WriteCall) :
    ∀ p : Nat, Consecutive o data p calls → p + bytes_accepted calls = data.length →
      (calls.map WriteCall.accepted).flatten = data.drop p := by
  induction calls with
  | nil =>
    intro p _ hsum
    have hp : data.length ≤ p := by
      simp [bytes_accepted] at hsum
      omega
    simp [List.drop_eq_nil_of_le hp]
  | cons c rest ih =>
    intro p hcons hsum
    obtain ⟨_, hbuf, hrest⟩ := hcons
    have hsum2 : p + c.result.toNat + bytes_accepted rest = data.length := by
      simp [bytes_accepted] at hsum ⊢
      omega
    rw [List.map_cons, List.flatten_cons, ih _ hrest hsum2, WriteCall.accepted, hbuf,
      ← List.drop_drop, List.take_append_drop]

theorem consecutive_offset_nonneg (o : Int) (data : List Char) (ho : 0 ≤ o)
    (calls : List WriteCall) :
    ∀ p : Nat, Consecutive o data p calls → ∀ c ∈ calls, 0 ≤ c.offset := by
  induction calls with
  | nil =>
    intro p _ c hc
    simp at hc
  | cons d rest ih =>
    intro p hcons c hc
    obtain ⟨hoff, _, hrest⟩ := hcons
    rcases List.mem_cons.1 hc with h | h
    · rw [h, hoff]; omega
    · exact ih _ hrest c h

/-- C10, refuted as stated: with the stream at offset `-1` on an empty file,
a chunk of three bytes and writes that take one byte and then the other two
(each result between 1 and the bytes still unwritten), the call returns
`kContinue` with the offset at `-1 + 3`; but the first write was stored at
the position of the descriptor, offset 0, and the second at offset 0 again:
the file holds two bytes, not the three of the chunk. -/
theorem write_chunk_negative_offset_counterexample :
    WriteAsciiChunk { content := [], position := 0 } (-1) ['a', 'b', 'c'] [1, 2] =
      some (WriteResult.kContinue, 2,
        [{ offset := -1, buf := ['a', 'b', 'c'], result := 1 },
         { offset := 0, buf := ['b', 'c'], result := 2 }],
        { content := ['b', 'c'], position := 1 }) ∧
    (uv_fs_write { content := [], position := 0 } (-1) ['a', 'b', 'c'] 1).1.content = ['a'] ∧
    (['b', 'c'] : List Char).length < (['a', 'b', 'c'] : List Char).length := by
  decide

/-- C10, amended: for a chunk `data` of `n` bytes, a starting offset
`o ≥ 0`, any file, and a sequence of at least `max 1 n` outcomes of the
write primitive in which the result of every write issued is negative or
between 1 and the number of bytes still unwritten: the call returns.  The
results it met are the first outcomes of the sequence, in order (`EINVAL`
where the range of the chunk would end beyond the largest offset).  The
writes continue one another: each is issued at the offset `o` plus the bytes
accepted so far, which is not negative, so that the primitive stores at that
offset, on the unwritten rest of the chunk; the accepted pieces thus follow
one another in the chunk and in the file, none skipped, none written twice.  The file ends as if the accepted bytes had been stored at offset `o`
in one piece, its position untouched, and the final offset is `o` plus the
bytes accepted.  Either the call returns `kContinue`, every result is at
least 1, the accepted pieces concatenate to the chunk, the offset ends at
`o + n` and the file holds the chunk at offset `o`; or it returns `kAbort`,
the last result met is negative and every result before it is at least 1. -/
theorem write_chunk_retries (file : File) (o : Int) (data : List Char)
    (outcomes : List Int) (ho : 0 ≤ o) (hadm : Admissible data.length outcomes)
    (hlen : max 1 data.length ≤ outcomes.length) :
    ∃ out off calls file1,
      WriteAsciiChunk file o data outcomes = some (out, off, calls, file1) ∧
      calls.map (fun c => c.result) =
        (outcomes.take calls.length).map
          (fun w => if 0 ≤ w ∧ 9223372036854775807 < o + data.length then -22 else w) ∧
      Consecutive o data 0 calls ∧
      (∀ c ∈ calls, 0 ≤ c.offset) ∧
      off = o + bytes_accepted calls ∧
      file1.content = write_at file.content o.toNat (data.take (bytes_accepted calls)) ∧
      file1.position = file.position ∧
      ((out = WriteResult.kContinue ∧ (∀ c ∈ calls, 1 ≤ c.result) ∧
          (calls.map WriteCall.accepted).flatten = data ∧ off = o + data.length ∧
          file1.content = write_at file.content o.toNat data) ∨
        (out = WriteResult.kAbort ∧ ∃ pre c, calls = pre ++ [c] ∧ c.result < 0 ∧
          ∀ x ∈ pre, 1 ≤ x.result)) := by
  have hcov := covering_of_admissible outcomes data.length hadm hlen
  cases outcomes with
  | nil => exact hcov.elim
  | cons w rest =>
    by_cases hover : 9223372036854775807 < o + (data.length : Int)
    · -- the range of the chunk is beyond the largest offset: the first write fails
      have hnoff : ¬ o < 0 := by omega
      have hprim : uv_fs_write file o data w = (file, if w < 0 then w else -22) := by
        by_cases hwneg : w < 0
        · simp [uv_fs_write, hwneg]
        · simp [uv_fs_write, hwneg, hnoff, hover]
      have hresneg : (if w < 0 then w else (-22 : Int)) < 0 := by
        split <;> omega
      have hrun : WriteAsciiChunk file o data (w :: rest) =
          some (WriteResult.kAbort, o,
            [{ offset := o, buf := data, result := if w < 0 then w else -22 }], file) := by
        simp only [WriteAsciiChunk, hprim]
        exact while_abort _ _ _ _ _ _ _ hresneg (by omega)
      have hz : (if w < 0 then w else (-22 : Int)).toNat = 0 := by omega
      refine ⟨_, _, _, _, hrun, ?_, ⟨by simp, by simp, trivial⟩, by simpa using ho, ?_, ?_, rfl,
        Or.inr ⟨rfl, [], _, rfl, hresneg, by simp⟩⟩
      · by_cases hwneg : w < 0
        · have : ¬ 0 ≤ w := by omega
          simp [hwneg, this]
        · have : 0 ≤ w := by omega
          simp [hwneg, this, hover]
      · simp [bytes_accepted, hz]
      · simp [bytes_accepted, hz, write_at_nil]
    · have hhi : o + (data.length : Int) ≤ 9223372036854775807 := by omega
      have hprim := uv_fs_write_in_range file o data w ho hhi
      have hres : (uv_fs_write file o data w).2 = w := by
        rw [hprim]; split <;> rfl
      have hpos : (uv_fs_write file o data w).1.position = file.position := by
        rw [hprim]; split <;> rfl
      have hwrange : w < 0 ∨ (1 ≤ w ∧ w ≤ (data.length : Int)) := by
        simp only [Covering] at hcov
        rcases hcov with h | ⟨ha, hb, _⟩
        · exact Or.inl h
        · exact Or.inr ⟨ha, hb⟩
      have h := while_spec o data ho hhi rest 0 w [] (uv_fs_write file o data w).1
        (Nat.zero_le _) (by simpa using hcov)
      obtain ⟨out, off, tail, file1, hrun, hseq, hcons, hoff, hcontent, hposition, hcase⟩ := h
      simp only [Nat.cast_zero, add_zero, sub_zero, List.drop_zero, List.nil_append,
        Nat.zero_add] at hrun hcons hoff hcontent hcase
      have hall : Consecutive o data 0 ({ offset := o, buf := data, result := w } :: tail) := by
        refine ⟨by simp, by simp, ?_⟩
        simpa using hcons
      have hbytes : bytes_accepted ({ offset := o, buf := data, result := w } :: tail) =
          w.toNat + bytes_accepted tail := by
        simp [bytes_accepted]
      have hfile : file1.content = write_at file.content o.toNat
          (data.take (w.toNat + bytes_accepted tail)) := by
        rw [hcontent]
        rcases hwrange with hwneg | ⟨hw1, hw2⟩
        · have hz : w.toNat = 0 := by omega
          rw [hprim, if_pos hwneg, hz]
          simp
        · have hnn : ¬ w < 0 := by omega
          have hb1 : (data.take w.toNat).length = w.toNat := by
            rw [List.length_take]; omega
          rw [hprim, if_neg hnn]
          simp only
          rw [List.take_add, ← write_at_write_at, hb1]
      refine ⟨out, off, { offset := o, buf := data, result := w } :: tail, file1, ?_, ?_, hall,
        consecutive_offset_nonneg o data ho _ 0 hall, ?_, ?_, ?_, ?_⟩
      · simp only [WriteAsciiChunk, hres]
        exact hrun
      · have hmap : ∀ l : List Int, l.map
            (fun w => if 0 ≤ w ∧ 9223372036854775807 < o + (data.length : Int) then -22 else w)
            = l := by
          intro l
          induction l with
          | nil => rfl
          | cons x xs ihx => simp [hover]
        rw [hmap]
        simpa using hseq
      · rw [hoff, hbytes]
      · rw [hbytes]; exact hfile
      · rw [hposition, hpos]
      · rcases hcase with ⟨hout, hr1, htail, hsum⟩ | ⟨hout, habort⟩
        · refine Or.inl ⟨hout, ?_, ?_, ?_, ?_⟩
          · intro c hc
            rcases List.mem_cons.1 hc with h | h
            · rw [h]; exact hr1
            · exact htail c h
          · have := accepted_flatten o data _ 0 hall (by rw [hbytes]; omega)
            simpa using this
          · rw [hoff, hsum]
          · rw [hfile, hsum, List.take_length]
        · refine Or.inr ⟨hout, ?_⟩
          rcases habort with ⟨hrneg, htail⟩ | ⟨hr1, pre, c, htail, hc, hpre⟩
          · subst htail
            exact ⟨[], _, rfl, hrneg, by simp⟩
          · subst htail
            refine ⟨_ :: pre, c, rfl, hc, ?_⟩
            intro x hx
            rcases List.mem_cons.1 hx with h | h
            · rw [h]; exact hr1
            · exact hpre x h

/-- Witness of C10: a chunk of three bytes at offset 4 of a file of two
bytes, written by a write of one byte and a write of the other two. -/
theorem write_chunk_retries_witness :
    (0 : Int) ≤ 4 ∧
    Admissible ['a', 'b', 'c'].length [1, 2, 7] ∧
    max 1 ['a', 'b', 'c'].length ≤ [(1 : Int), 2, 7].length ∧
    ∃ out off calls file1,
      WriteAsciiChunk { content := ['x', 'y'], position := 0 } 4 ['a', 'b', 'c'] [1, 2, 7] =
        some (out, off, calls, file1) ∧
      off = 4 + bytes_accepted calls ∧
      file1.content = write_at ['x', 'y'] 4 (['a', 'b', 'c'].take (bytes_accepted calls)) := by
  have hadm : Admissible ['a', 'b', 'c'].length [1, 2, 7] := by
    simp [Admissible]
  refine ⟨by decide, hadm, by decide, ?_⟩
  obtain ⟨out, off, calls, file1, hrun, _, _, _, hoff, hcontent, _, _⟩ :=
    write_chunk_retries { content := ['x', 'y'], position := 0 } 4 ['a', 'b', 'c'] [1, 2, 7]
      (by decide) hadm (by decide)
  exact ⟨out, off, calls, file1, hrun, hoff, hcontent⟩

end ClinicAgent
